import Mathlib

/-!
# Verification of `manage_opencode_projects.py`

A shallow embedding of the Python wrapper script that launches the
OpenCode metadata manager. The script:
  * extracts the wrapper-level `--bun` option (two-token form `--bun VALUE`
    and single-token form `--bun=VALUE`) from the argument vector;
  * locates the bun executable (`find_bun`), preferring the explicit path;
  * classifies argument vectors (`is_cli_subcommand`);
  * spawns the TypeScript entrypoint (`run_entrypoint`) with the filtered
    arguments, in the directory containing the script (`PROJECT_DIR`).

Interaction with the operating system is modelled by an explicit
environment `Env`: the result of `shutil.which("bun")`, the resolved
script directory, and a spawn function `List String → String → Option Int`
(command and working directory to exit code; `none` models process-creation
failure, i.e. the `OSError` family raised by `subprocess.run`).

Python exceptions that escape `main` are modelled by `PyExc`:
`SystemExit(msg)` (raised by `find_bun`) and the uncaught `OSError`.
A Python process terminating on either one exits with status 1.
-/

namespace OCManager

/-- Python `s.startswith(p)`, expressed on the underlying character lists
so that the kernel can evaluate it on concrete strings. -/
def pyStartsWith (s p : String) : Bool :=
  p.data.isPrefixOf s.data

/-- Exceptions that can escape `main` in the Python script. -/
inductive PyExc where
  /-- `raise SystemExit(msg)`: printed message, exit status 1. -/
  | systemExit (msg : String) : PyExc
  /-- An `OSError` (e.g. `FileNotFoundError`, `PermissionError`) raised by
  `subprocess.run` when the child process cannot be created; uncaught, so
  the interpreter prints a traceback and exits with status 1. -/
  | osError : PyExc
deriving DecidableEq, Repr

/-- The ambient operating-system state the script interacts with. -/
structure Env where
  /-- `PROJECT_DIR = Path(__file__).resolve().parent`, resolved once at
  module import. -/
  file_dir : String
  /-- Result of `shutil.which("bun")`: `none` when no executable is found
  on the system path. -/
  which_bun : Option String
  /-- `subprocess.run(cmd, cwd=...)`: `some rc` when the child launches and
  exits with code `rc`; `none` when process creation fails. -/
  spawn : List String → String → Option Int

/-- `CLI_SUBCOMMANDS = frozenset({"projects", "sessions", "chat", "tokens"})`. -/
def CLI_SUBCOMMANDS : List String := ["projects", "sessions", "chat", "tokens"]

/-- The fixed entrypoint locator argument of line 63. -/
def entrypointLocator : String := "src/bin/opencode-manager.ts"

/-- The characters after the first `'='`, or `none` if there is no `'='`. -/
def charsAfterEq : List Char → Option (List Char)
  | [] => none
  | c :: rest => if c = '=' then some rest else charsAfterEq rest

/-- Python `s.split("=", 1)[1]`: everything after the first `'='`.
(The `[1]` index is only evaluated under a guard guaranteeing that `'='`
occurs in `s`; the `none` branch is unreachable there — in Python it would
raise `IndexError`.) -/
def pySplitEqTail (s : String) : String :=
  match charsAfterEq s.data with
  | some cs => String.mk cs
  | none => ""

/-- Exit status of the Python process given the outcome of `main`:
`sys.exit(main())` forwards an `int` return verbatim, any escaping
exception (`SystemExit` with a string message, or an `OSError`) makes the
interpreter exit with status 1. -/
def processExitCode : Except PyExc Int → Int
  | Except.ok rc => rc
  | Except.error _ => 1

/-- `find_bun(explicit_path)` — lines 30–37.  `if explicit_path:` is Python
truthiness: `None` and the empty string both fall through to the
`shutil.which("bun")` search. -/
def find_bun (env : Env) (explicit_path : Option String) : Except PyExc String :=
  match explicit_path with
  | some s =>
    if s = "" then
      match env.which_bun with
      | some p => Except.ok p
      | none => Except.error (PyExc.systemExit "bun executable not found. Please install Bun.")
    else
      Except.ok s
  | none =>
    match env.which_bun with
    | some p => Except.ok p
    | none => Except.error (PyExc.systemExit "bun executable not found. Please install Bun.")

/-- `is_cli_subcommand(args)` — lines 40–48: the first token not starting
with `-` decides; all-flag or empty vectors yield `False`. -/
def is_cli_subcommand : List String → Bool
  | [] => false
  | arg :: rest =>
    if pyStartsWith arg "-" then
      is_cli_subcommand rest
    else
      decide (arg ∈ CLI_SUBCOMMANDS)

/-- The `while` loop of `main` — lines 81–92.  Scans the argument vector
left to right; `--bun VALUE` (only when a following token exists) and
`--bun=VALUE` are extracted, with the captured value overwriting `bun`;
every other token is appended to the filtered list. -/
def extractBun : List String → Option String → List String × Option String
  | [], bun => ([], bun)
  | a :: rest, bun =>
    if a = "--bun" ∧ rest ≠ [] then
      match rest with
      | v :: rest2 => extractBun rest2 (some v)
      | [] => ([], bun)
    else if pyStartsWith a "--bun=" then
      extractBun rest (some (pySplitEqTail a))
    else
      (a :: (extractBun rest bun).1, (extractBun rest bun).2)

/-- The normalisation of lines 59–61: drop the leading `--`, if any. -/
def dropLeadingSep : List String → List String
  | "--" :: rest => rest
  | l => l

/-- `run_entrypoint(bun_exe, args)` — lines 51–65.  Builds the child
command, spawns it in `PROJECT_DIR`, returns the child's return code. -/
def run_entrypoint (env : Env) (bun_exe : String) (args : List String) :
    Except PyExc Int :=
  let args_list := dropLeadingSep args
  let cmd := bun_exe :: entrypointLocator :: args_list
  match env.spawn cmd env.file_dir with
  | some rc => Except.ok rc
  | none => Except.error PyExc.osError

/-- `main(argv)` — lines 68–95: extract `--bun`, locate bun, run. -/
def main (env : Env) (argv : List String) : Except PyExc Int :=
  let p := extractBun argv none
  match find_bun env p.2 with
  | Except.error e => Except.error e
  | Except.ok bun_exe => run_entrypoint env bun_exe p.1

/-- A spawn function that succeeds (with exit code `rc`) only on exactly
the expected command and working directory: used to observe the child
invocation that `run_entrypoint` builds. -/
def onlyCmd (expected : List String) (cwd0 : String) (rc : Int) :
    List String → String → Option Int :=
  fun cmd cwd => if cmd = expected ∧ cwd = cwd0 then some rc else none

/-- A list with no token that could begin a `--bun` occurrence: scanning it
keeps every token. -/
def cleanOfBun (l : List String) : Prop :=
  ∀ a ∈ l, a ≠ "--bun" ∧ pyStartsWith a "--bun=" = false

instance (l : List String) : Decidable (cleanOfBun l) := by
  unfold cleanOfBun; infer_instance

/-- The scan of `l` reaches a final `"--bun"` token with no following value
token: such a trailing token is kept, and when more input follows it the
scan would instead consume the next token as its value. -/
def endsDangling : List String → Bool
  | [] => false
  | a :: rest =>
    if a = "--bun" ∧ rest ≠ [] then
      match rest with
      | _ :: rest2 => endsDangling rest2
      | [] => false
    else if a = "--bun" then true
    else endsDangling rest

/-! ### Rewrite lemmas for the extraction scan -/

lemma extractBun_pair (v : String) (rest : List String) (b : Option String) :
    extractBun ("--bun" :: v :: rest) b = extractBun rest (some v) := by
  simp [extractBun]

lemma extractBun_eqform (a : String) (rest : List String) (b : Option String)
    (h : pyStartsWith a "--bun=" = true) :
    extractBun (a :: rest) b = extractBun rest (some (pySplitEqTail a)) := by
  have ha : a ≠ "--bun" := by rintro rfl; exact absurd h (by decide)
  rw [extractBun.eq_def]
  simp [ha, h]

lemma extractBun_keep (a : String) (rest : List String) (b : Option String)
    (h1 : a = "--bun" → rest = []) (h2 : pyStartsWith a "--bun=" = false) :
    extractBun (a :: rest) b = (a :: (extractBun rest b).1, (extractBun rest b).2) := by
  by_cases ha : a = "--bun"
  · have : rest = [] := h1 ha
    subst this; subst ha
    simp [extractBun, h2]
  · rw [extractBun.eq_def]
    simp [ha, h2]

/-- Tokens that cannot begin a `--bun` occurrence are copied verbatim in
front of the rest of the scan. -/
lemma extractBun_clean_append (pre rest : List String) (b : Option String)
    (h : cleanOfBun pre) :
    extractBun (pre ++ rest) b =
      (pre ++ (extractBun rest b).1, (extractBun rest b).2) := by
  induction pre with
  | nil => simp
  | cons a pre ih =>
    obtain ⟨ha, hs⟩ := h a (List.mem_cons_self a pre)
    have hclean : cleanOfBun pre := fun x hx => h x (List.mem_cons_of_mem a hx)
    rw [List.cons_append, extractBun_keep a (pre ++ rest) b (fun e => absurd e ha) hs,
      ih hclean]
    simp

/-- A clean list is returned unchanged and the captured value untouched. -/
lemma extractBun_clean (l : List String) (b : Option String) (h : cleanOfBun l) :
    extractBun l b = (l, b) := by
  have := extractBun_clean_append l [] b h
  simpa [extractBun] using this

/-- Unless the scan of `xs` ends on a dangling `"--bun"`, extraction over
`xs ++ ys` is the extraction over `xs` followed by the extraction over `ys`
starting from the value captured in `xs`. -/
lemma extractBun_append (xs ys : List String) (b : Option String)
    (h : endsDangling xs = false) :
    extractBun (xs ++ ys) b =
      ((extractBun xs b).1 ++ (extractBun ys (extractBun xs b).2).1,
       (extractBun ys (extractBun xs b).2).2) := by
  induction xs, b using extractBun.induct with
  | case1 b => simp [extractBun]
  | case2 a b v rest2 hc ih =>
    obtain ⟨rfl, -⟩ := hc
    have hd : endsDangling rest2 = false := by
      rw [endsDangling.eq_def] at h
      simpa using h
    rw [List.cons_append, List.cons_append, extractBun_pair, extractBun_pair, ih hd]
  | case3 a b hc =>
    exact absurd rfl hc.2
  | case4 a rest b hc hs ih =>
    have ha : a ≠ "--bun" := by rintro rfl; exact absurd hs (by decide)
    have hd : endsDangling rest = false := by
      rw [endsDangling.eq_def] at h
      simpa [ha] using h
    rw [List.cons_append, extractBun_eqform a (rest ++ ys) b hs,
      extractBun_eqform a rest b hs, ih hd]
  | case5 a rest b hc hs ih =>
    have hs' : pyStartsWith a "--bun=" = false := by simpa using hs
    have h1 : a = "--bun" → rest = [] := by
      intro e; by_contra hne; exact hc ⟨e, hne⟩
    have ha : a ≠ "--bun" := by
      rintro rfl
      have : rest = [] := h1 rfl
      subst this
      rw [endsDangling.eq_def] at h
      simp at h
    have hd : endsDangling rest = false := by
      rw [endsDangling.eq_def] at h
      simpa [ha] using h
    have h1' : a = "--bun" → rest ++ ys = [] := fun e => absurd e ha
    rw [List.cons_append, extractBun_keep a (rest ++ ys) b h1' hs',
      extractBun_keep a rest b h1 hs', ih hd]
    simp

/-- Claim-side characterisation of the option-extraction scan: the second
list is the first with exactly the recognized `--bun` occurrences removed —
a two-token occurrence `--bun VALUE`, or a single token beginning with
`--bun=` — every other token being kept in its original relative order
(a final `"--bun"` with no following value token is an ordinary kept
token). -/
inductive RemovesBun : List String → List String → Prop where
  | nil : RemovesBun [] []
  | keep (a : String) (rest f : List String) :
      (a = "--bun" → rest = []) → pyStartsWith a "--bun=" = false →
      RemovesBun rest f → RemovesBun (a :: rest) (a :: f)
  | pair (v : String) (rest f : List String) :
      RemovesBun rest f → RemovesBun ("--bun" :: v :: rest) f
  | eqform (a : String) (rest f : List String) :
      pyStartsWith a "--bun=" = true → RemovesBun rest f →
      RemovesBun (a :: rest) f

lemma removesBun_sublist {l f : List String} (h : RemovesBun l f) : f.Sublist l := by
  induction h with
  | nil => exact List.Sublist.refl []
  | keep a rest f _ _ _ ih => exact List.Sublist.cons₂ a ih
  | pair v rest f _ ih => exact List.Sublist.cons "--bun" (List.Sublist.cons v ih)
  | eqform a rest f _ _ ih => exact List.Sublist.cons a ih

/-! ### The claims -/

/-- **C1.**  For every bun executable path and every argument vector, the
child invocation built by `run_entrypoint` is exactly the resolved
executable path, then the constant entrypoint locator
`"src/bin/opencode-manager.ts"`, then the filtered argument vector with
the optional leading `"--"` dropped, in order; and the working directory
passed to the spawn is `PROJECT_DIR`, the directory containing the
script.  Stated observationally: a spawn function succeeding only on
exactly that command line and working directory does succeed. -/
theorem run_entrypoint_child_invocation (fd : String) (w : Option String)
    (b : String) (args : List String) (rc : Int) :
    run_entrypoint ⟨fd, w, onlyCmd (b :: entrypointLocator :: dropLeadingSep args) fd rc⟩
      b args = Except.ok rc := by
  simp [run_entrypoint, onlyCmd]

/-- **C3.**  `is_cli_subcommand` yields `true` exactly when the first token
not beginning with `-` is a member of `CLI_SUBCOMMANDS`; tokens beginning
with `-` are skipped and never decide, and an empty or all-flag vector
yields `false` (interactive mode). -/
theorem is_cli_subcommand_spec (args : List String) :
    is_cli_subcommand args =
      match args.find? (fun a => !(pyStartsWith a "-")) with
      | some t => decide (t ∈ CLI_SUBCOMMANDS)
      | none => false := by
  induction args with
  | nil => rfl
  | cons a rest ih =>
    by_cases h : pyStartsWith a "-"
    · simp [is_cli_subcommand, List.find?_cons, h, ih]
    · simp [is_cli_subcommand, List.find?_cons, h]

/-- **C4.**  A non-empty explicit path is returned by `find_bun` unchanged,
with the system-path search never consulted (the result is the same for
every `which` outcome); and an argument vector containing a single
recognized `--bun` occurrence — in two-token or `--bun=` form — captures
exactly that value and hands it to `find_bun`. -/
theorem find_bun_explicit_override (env : Env) (s t : String)
    (pre post : List String) (hs : s ≠ "")
    (hclean : cleanOfBun (pre ++ post)) :
    find_bun env (some s) = Except.ok s ∧
    extractBun (pre ++ ["--bun", s] ++ post) none = (pre ++ post, some s) ∧
    (pyStartsWith t "--bun=" = true → pySplitEqTail t = s →
      extractBun (pre ++ [t] ++ post) none = (pre ++ post, some s)) := by
  have hpre : cleanOfBun pre := fun x hx => hclean x (List.mem_append_left _ hx)
  have hpost : cleanOfBun post := fun x hx => hclean x (List.mem_append_right _ hx)
  refine ⟨by simp [find_bun, hs], ?_, ?_⟩
  · rw [List.append_assoc, extractBun_clean_append pre (["--bun", s] ++ post) none hpre]
    rw [List.cons_append, List.cons_append, List.nil_append, extractBun_pair,
      extractBun_clean post (some s) hpost]
  · intro ht hv
    rw [List.append_assoc, extractBun_clean_append pre ([t] ++ post) none hpre]
    rw [List.cons_append, List.nil_append, extractBun_eqform t post none ht, hv,
      extractBun_clean post (some s) hpost]

/-- Witness for C4 at `pre = ["run"]`, `post = ["-v"]`, `s = "/custom/path"`,
`t = "--bun=/custom/path"`. -/
theorem find_bun_explicit_override_witness :
    find_bun ⟨"/proj", none, fun _ _ => none⟩ (some "/custom/path") =
      Except.ok "/custom/path" ∧
    extractBun (["run"] ++ ["--bun", "/custom/path"] ++ ["-v"]) none =
      (["run", "-v"], some "/custom/path") ∧
    extractBun (["run"] ++ ["--bun=/custom/path"] ++ ["-v"]) none =
      (["run", "-v"], some "/custom/path") := by
  obtain ⟨h1, h2, h3⟩ :=
    find_bun_explicit_override ⟨"/proj", none, fun _ _ => none⟩
      "/custom/path" "--bun=/custom/path" ["run"] ["-v"]
      (by decide) (by decide)
  exact ⟨h1, h2, h3 (by decide) (by decide)⟩

/-- **C9.**  The leading-separator normalisation removes exactly one
element, and only when the first element is the bare token `"--"`; any
vector not starting with `"--"` is unchanged, so later occurrences of
`"--"` are preserved — in particular a second leading `"--"` survives. -/
theorem dropLeadingSep_spec (l : List String) :
    (l.head? = some "--" → dropLeadingSep l = l.tail ∧ l = "--" :: dropLeadingSep l) ∧
    (l.head? ≠ some "--" → dropLeadingSep l = l) ∧
    (∀ rest : List String, dropLeadingSep ("--" :: "--" :: rest) = "--" :: rest) := by
  refine ⟨?_, ?_, fun rest => rfl⟩
  · intro h
    cases l with
    | nil => simp at h
    | cons a rest =>
      have : a = "--" := by simpa using h
      subst this
      exact ⟨rfl, rfl⟩
  · intro h
    match l with
    | [] => rfl
    | a :: rest =>
      have ha : a ≠ "--" := by
        intro e; exact h (by rw [e]; rfl)
      rw [dropLeadingSep.eq_def]
      simp [ha]

/-- Witness for C9 at `["--", "--", "x"]` and `["a", "--", "b"]`. -/
theorem dropLeadingSep_spec_witness :
    dropLeadingSep ["--", "--", "x"] = ["--", "x"] ∧
    dropLeadingSep ["a", "--", "b"] = ["a", "--", "b"] := by
  refine ⟨((dropLeadingSep_spec ["--", "--", "x"]).1 rfl).1, ?_⟩
  exact (dropLeadingSep_spec ["a", "--", "b"]).2.1 (by simp)

/-- **C10.**  A final `"--bun"` with no following token is not recognized
as the wrapper option: it stays in the filtered vector in its position and
leaves the captured override exactly as it was; and the token `"--bun="`
captures the empty string, which `find_bun` treats exactly like no
override at all, so the system search still runs. -/
theorem trailing_bun_not_an_option (pre : List String) (b : Option String)
    (env : Env) (hclean : cleanOfBun pre) :
    extractBun (pre ++ ["--bun"]) b = (pre ++ ["--bun"], b) ∧
    extractBun (pre ++ ["--bun="]) b = (pre, some "") ∧
    find_bun env (some "") = find_bun env none := by
  refine ⟨?_, ?_, ?_⟩
  · rw [extractBun_clean_append pre ["--bun"] b hclean,
      extractBun_keep "--bun" [] b (fun _ => rfl) (by decide)]
    simp [extractBun]
  · rw [extractBun_clean_append pre ["--bun="] b hclean,
      extractBun_eqform "--bun=" [] b (by decide)]
    simp [extractBun]
    decide
  · simp [find_bun]

/-- Witness for C10 at `pre = ["x"]`, `b = none`. -/
theorem trailing_bun_not_an_option_witness :
    extractBun (["x"] ++ ["--bun"]) none = (["x", "--bun"], none) ∧
    extractBun (["x"] ++ ["--bun="]) none = (["x"], some "") ∧
    find_bun ⟨"/proj", none, fun _ _ => none⟩ (some "") =
      find_bun ⟨"/proj", none, fun _ _ => none⟩ none :=
  trailing_bun_not_an_option ["x"] none ⟨"/proj", none, fun _ _ => none⟩ (by decide)

/-- **C7.**  The filtered argument vector is exactly the input minus the
recognized `--bun` occurrences (`RemovesBun`), with no token added or
reordered (it is a sublist of the input); afterwards at most the one
leading bare `"--"` is additionally removed by the normalisation. -/
theorem filtered_args_spec (argv : List String) (b : Option String) :
    RemovesBun argv (extractBun argv b).1 ∧
    (extractBun argv b).1.Sublist argv ∧
    (dropLeadingSep (extractBun argv b).1 = (extractBun argv b).1 ∨
      (extractBun argv b).1 = "--" :: dropLeadingSep (extractBun argv b).1) := by
  have hrem : RemovesBun argv (extractBun argv b).1 := by
    induction argv, b using extractBun.induct with
    | case1 b => exact RemovesBun.nil
    | case2 a b v rest2 hc ih =>
      obtain ⟨rfl, -⟩ := hc
      rw [extractBun_pair]
      exact RemovesBun.pair v rest2 _ ih
    | case3 a b hc => exact absurd rfl hc.2
    | case4 a rest b hc hs ih =>
      rw [extractBun_eqform a rest b hs]
      exact RemovesBun.eqform a rest _ hs ih
    | case5 a rest b hc hs ih =>
      have hs' : pyStartsWith a "--bun=" = false := by simpa using hs
      have h1 : a = "--bun" → rest = [] := by
        intro e; by_contra hne; exact hc ⟨e, hne⟩
      rw [extractBun_keep a rest b h1 hs']
      exact RemovesBun.keep a rest _ h1 hs' ih
  refine ⟨hrem, removesBun_sublist hrem, ?_⟩
  rcases hf : (extractBun argv b).1 with _ | ⟨a, rest⟩
  · left; rfl
  · by_cases ha : a = "--"
    · subst ha; right; rfl
    · left
      rw [dropLeadingSep.eq_def]
      simp [ha]

/-- **C8.**  When an argument vector contains several recognized `--bun`
occurrences, the captured override is the value of the rightmost one:
whatever was captured while scanning the earlier part (`pre`, whose scan
must genuinely finish, i.e. not end on a dangling `"--bun"` that would
swallow the next token), a final occurrence — two-token or `--bun=` form —
followed only by ordinary tokens determines the captured value. -/
theorem last_bun_occurrence_wins (pre post : List String) (v t : String)
    (b : Option String) (hpre : endsDangling pre = false)
    (hpost : cleanOfBun post) :
    (extractBun (pre ++ ["--bun", v] ++ post) b).2 = some v ∧
    (pyStartsWith t "--bun=" = true →
      (extractBun (pre ++ [t] ++ post) b).2 = some (pySplitEqTail t)) := by
  constructor
  · rw [List.append_assoc, extractBun_append pre (["--bun", v] ++ post) b hpre]
    rw [List.cons_append, List.cons_append, List.nil_append, extractBun_pair,
      extractBun_clean post (some v) hpost]
  · intro ht
    rw [List.append_assoc, extractBun_append pre ([t] ++ post) b hpre]
    rw [List.cons_append, List.nil_append,
      extractBun_eqform t post _ ht,
      extractBun_clean post (some (pySplitEqTail t)) hpost]

/-- Witness for C8: `--bun /a` then `--bun /b` captures `/b`; `--bun /a`
then `--bun=/c` captures `/c`. -/
theorem last_bun_occurrence_wins_witness :
    (extractBun (["--bun", "/a"] ++ ["--bun", "/b"] ++ []) none).2 = some "/b" ∧
    (extractBun (["--bun", "/a"] ++ ["--bun=/c"] ++ []) none).2 = some "/c" := by
  constructor
  · exact (last_bun_occurrence_wins ["--bun", "/a"] [] "/b" "--bun=/c" none
      (by decide) (by decide)).1
  · have := (last_bun_occurrence_wins ["--bun", "/a"] [] "/b" "--bun=/c" none
      (by decide) (by decide)).2 (by decide)
    simpa using this

/-- **C2.**  Whenever the child launches (the spawn of the built command in
`PROJECT_DIR` yields an exit code), `run_entrypoint` returns the child's
code, `main` returns it verbatim, and the wrapper process exits with it. -/
theorem wrapper_exit_code_is_child_exit_code (env : Env) (argv : List String)
    (b : String) (rc : Int)
    (hfind : find_bun env (extractBun argv none).2 = Except.ok b)
    (hspawn : env.spawn (b :: entrypointLocator :: dropLeadingSep (extractBun argv none).1)
      env.file_dir = some rc) :
    run_entrypoint env b (extractBun argv none).1 = Except.ok rc ∧
    main env argv = Except.ok rc ∧
    processExitCode (main env argv) = rc := by
  have hrun : run_entrypoint env b (extractBun argv none).1 = Except.ok rc := by
    simp only [run_entrypoint]
    rw [hspawn]
  have hmain : main env argv = Except.ok rc := by
    simp only [main]
    rw [hfind]
    exact hrun
  exact ⟨hrun, hmain, by rw [hmain]; rfl⟩

/-- Witness for C2 at `argv = ["sessions"]` with bun at `/usr/bin/bun` and a
child exiting 42. -/
theorem wrapper_exit_code_is_child_exit_code_witness :
    main ⟨"/proj", some "/usr/bin/bun",
        onlyCmd ["/usr/bin/bun", "src/bin/opencode-manager.ts", "sessions"] "/proj" 42⟩
      ["sessions"] = Except.ok 42 :=
  (wrapper_exit_code_is_child_exit_code
    ⟨"/proj", some "/usr/bin/bun",
      onlyCmd ["/usr/bin/bun", "src/bin/opencode-manager.ts", "sessions"] "/proj" 42⟩
    ["sessions"] "/usr/bin/bun" 42 rfl rfl).2.1

/-- **C5.**  With no effective override (nothing captured, or the empty
string) and an empty system search, `main` terminates with the
`SystemExit` error carrying the install-bun message, the process exit
status is 1 (non-zero), and no child is spawned: the outcome is the same
for every spawn function. -/
theorem no_bun_found_fatal (fd : String)
    (sp : List String → String → Option Int) (argv : List String)
    (hb : (extractBun argv none).2 = none ∨ (extractBun argv none).2 = some "") :
    main ⟨fd, none, sp⟩ argv =
      Except.error (PyExc.systemExit "bun executable not found. Please install Bun.") ∧
    processExitCode (main ⟨fd, none, sp⟩ argv) ≠ 0 := by
  have hfind : find_bun ⟨fd, none, sp⟩ (extractBun argv none).2 =
      Except.error (PyExc.systemExit "bun executable not found. Please install Bun.") := by
    rcases hb with h | h <;> rw [h] <;> simp [find_bun]
  have hmain : main ⟨fd, none, sp⟩ argv =
      Except.error (PyExc.systemExit "bun executable not found. Please install Bun.") := by
    simp only [main]
    rw [hfind]
  exact ⟨hmain, by rw [hmain]; decide⟩

/-- Witness for C5 at `argv = ["--bun="]` (empty override) under a spawn
that would happily run anything. -/
theorem no_bun_found_fatal_witness :
    main ⟨"/proj", none, fun _ _ => some 0⟩ ["--bun="] =
      Except.error (PyExc.systemExit "bun executable not found. Please install Bun.") :=
  (no_bun_found_fatal "/proj" (fun _ _ => some 0) ["--bun="] (Or.inr (by decide))).1

/-- **C6.**  If the child process cannot be created (the spawn of the built
command fails), the wrapper surfaces the uncaught `OSError`: `main` ends in
the `osError` outcome — distinguishable from both a normal return and the
`SystemExit` of a failed search — and the process exit status is 1,
non-zero; the failure is neither swallowed into a normal return nor
retried. -/
theorem child_launch_failure_fatal (env : Env) (argv : List String) (b : String)
    (hfind : find_bun env (extractBun argv none).2 = Except.ok b)
    (hspawn : env.spawn (b :: entrypointLocator :: dropLeadingSep (extractBun argv none).1)
      env.file_dir = none) :
    main env argv = Except.error PyExc.osError ∧
    processExitCode (main env argv) ≠ 0 ∧
    (∀ msg, PyExc.osError ≠ PyExc.systemExit msg) := by
  have hrun : run_entrypoint env b (extractBun argv none).1 =
      Except.error PyExc.osError := by
    simp only [run_entrypoint]
    rw [hspawn]
  have hmain : main env argv = Except.error PyExc.osError := by
    simp only [main]
    rw [hfind]
    exact hrun
  refine ⟨hmain, by rw [hmain]; decide, fun msg h => by cases h⟩

/-- Witness for C6 at `argv = ["--bun", "/bad/path", "x"]` with a spawn that
always fails. -/
theorem child_launch_failure_fatal_witness :
    main ⟨"/proj", none, fun _ _ => none⟩ ["--bun", "/bad/path", "x"] =
      Except.error PyExc.osError :=
  (child_launch_failure_fatal ⟨"/proj", none, fun _ _ => none⟩
    ["--bun", "/bad/path", "x"] "/bad/path" rfl rfl).1

end OCManager
